import Mathlib

/-!
Shallow embedding of `tastypie/envelopes.py` (class `MetaEnvelope`).

The Python module post-processes Django `HttpResponse` objects (or raw dict
content) into an envelope structure
`{"meta": {"status": ..., "errors": ..., "pagination"?: ...}, "data": ...}`.

Modelling choices, each tied to a line of the source:
* JSON values are a nested inductive `JSON`; Python dicts become association
  lists preserving insertion order (updates keep position, fresh keys are
  appended, matching CPython dict semantics used by the code).
* Exceptions (`KeyError` from `errors[category]["__all__"]`, `TypeError`
  from `"meta" in scalar` or `scalar["meta"]`) are modelled by `Option`:
  `none` means the Python code raises.
* `json.loads(self.response.content)` is modelled by storing the parsed
  body directly in the response record (the input contract assumes a
  JSON-parseable body).
* The validator (`FormValidation.is_valid` applied to a `Bundle` wrapping
  the candidate data) is an abstract function from the data to a dict of
  field errors; an empty dict is falsy in Python, hence the emptiness test.
  `validation = none` covers both "no validator" and "validator that is not
  a `FormValidation` instance" (the `isinstance` test in `process`).
-/

namespace Tastypie

/-- JSON values as produced by `json.loads` / consumed by `json.dumps`. -/
inductive JSON where
  | null : JSON
  | bool : Bool → JSON
  | num : Int → JSON
  | str : String → JSON
  | arr : List JSON → JSON
  | obj : List (String × JSON) → JSON

/-- Python dict lookup `d.get(k)` on an insertion-ordered association list. -/
def lookupField : List (String × JSON) → String → Option JSON
  | [], _ => none
  | (k', v) :: rest, k => if k' = k then some v else lookupField rest k

/-- Python dict assignment `d[k] = v`: update in place, or append a new key. -/
def setField : List (String × JSON) → String → JSON → List (String × JSON)
  | [], k, v => [(k, v)]
  | (k', v') :: rest, k, v =>
    if k' = k then (k', v) :: rest else (k', v') :: setField rest k v

/-- Python `k in d` for a dict. -/
def hasKey (fs : List (String × JSON)) (k : String) : Bool :=
  fs.any (fun p => p.1 = k)

/-- Does the character list start with the pattern? (`str.startswith`). -/
def charsStartWith : List Char → List Char → Bool
  | [], _ => true
  | _ :: _, [] => false
  | c :: cs, d :: ds => c = d && charsStartWith cs ds

/-- Does the pattern occur as a contiguous run of the character list? -/
def charsContain (pat : List Char) : List Char → Bool
  | [] => charsStartWith pat []
  | c :: cs => charsStartWith pat (c :: cs) || charsContain pat cs

/-- Python substring test `pat in s`. -/
def strContains (s pat : String) : Bool :=
  charsContain pat.data s.data

/-- Python `s in xs` for a list: an element equal to the string `s`
(Python equality between a `str` and a non-`str` JSON value is `False`). -/
def containsStrElem (xs : List JSON) (s : String) : Bool :=
  xs.any (fun x => match x with | .str t => t = s | _ => false)

/-- Python truthiness of a decoded JSON value. -/
def jsonTruthy : JSON → Bool
  | .null => false
  | .bool b => b
  | .num n => n ≠ 0
  | .str s => s ≠ ""
  | .arr xs => !xs.isEmpty
  | .obj fs => !fs.isEmpty

/-- Python `k in x` where `x` is an arbitrary decoded value: key membership
for dicts, element membership for lists, substring for strings, and a
`TypeError` (modelled as `none`) for scalars. -/
def pyContains : JSON → String → Option Bool
  | .obj fs, k => some (hasKey fs k)
  | .arr xs, k => some (containsStrElem xs k)
  | .str s, k => some (strContains s k)
  | _, _ => none

/-- Python `x[k]` with a string key: dict lookup (`KeyError` when missing),
`TypeError` (`none`) on anything else. -/
def pyIndex : JSON → String → Option JSON
  | .obj fs, k => lookupField fs k
  | _, _ => none

/-- A Django `HttpResponse` as seen by the envelope: `status_code`, the
value of the `content-type` header (`_headers.get('content-type')[1]`),
and the JSON-decoded body. -/
structure HttpResponse where
  status_code : Nat
  content_type : Option String
  body : JSON

/-- The validator contract: `FormValidation.is_valid(bundle)` returns a dict
of per-field error lists (empty when valid). -/
def Validator : Type := JSON → List (String × JSON)

/-- The `self.response_data` dict:
`{'meta': {'status': ..., 'errors': ..., 'pagination'?: ...}, 'data': ...}`. -/
structure ResponseData where
  status : Nat
  errors : List (String × JSON)
  pagination : Option JSON
  data : JSON

/-- The mutable state of a `MetaEnvelope` instance. -/
structure Envelope where
  validation : Option Validator
  response : Option HttpResponse
  content : Option JSON
  is_modified : Bool
  is_processed : Bool
  response_data : ResponseData

/-- `MetaEnvelope.__init__`: status is
`self.response and self.response.status_code or 200`, so a falsy (zero)
status code also falls back to 200; errors start empty and data starts
as the empty dict. -/
def mkEnvelope (validation : Option Validator) (response : Option HttpResponse)
    (content : Option JSON) : Envelope :=
  { validation := validation
    response := response
    content := content
    is_modified := false
    is_processed := false
    response_data :=
      { status := match response with
          | some r => if r.status_code = 0 then 200 else r.status_code
          | none => 200
        errors := []
        pagination := none
        data := .obj [] } }

/-- `MetaEnvelope.update_data`: `self.response_data['data'] = copy.deepcopy(data)`
(deep copy is the identity in a value model). -/
def update_data (rd : ResponseData) (d : JSON) : ResponseData :=
  { rd with data := d }

/-- `MetaEnvelope.clear_data`: `self.response_data['data'] = {}`.
Defined by the source but never invoked by `process` or `transform`. -/
def clear_data (rd : ResponseData) : ResponseData :=
  { rd with data := .obj [] }

/-- `MetaEnvelope.get_errors`. -/
def get_errors (rd : ResponseData) : List (String × JSON) :=
  rd.errors

/-- `MetaEnvelope.get_status`. -/
def get_status (rd : ResponseData) : Nat :=
  rd.status

/-- `MetaEnvelope.contains_errors`: status at least 400, or a truthy
(non-empty) errors dict. -/
def contains_errors (rd : ResponseData) : Bool :=
  decide (400 ≤ rd.status) || !rd.errors.isEmpty

/-- `MetaEnvelope.add_errors(category, data)`. A missing category is first
initialised to `{'__all__': []}`. A dict payload replaces the category
(deep copy). A string payload is appended (deduplicated) to the category's
`'__all__'` list — raising `KeyError`/`TypeError` (modelled `none`) when the
category's current value is not a dict holding an `'__all__'` list. Any
other payload type leaves the (possibly freshly initialised) category as is. -/
def add_errors (errors : List (String × JSON)) (category : String) (data : JSON) :
    Option (List (String × JSON)) :=
  let errors :=
    if (lookupField errors category).isNone then
      errors ++ [(category, .obj [("__all__", .arr [])])]
    else errors
  match data with
  | .obj d => some (setField errors category (.obj d))
  | .str s =>
    match lookupField errors category with
    | some (.obj fields) =>
      match lookupField fields "__all__" with
      | some (.arr msgs) =>
        if containsStrElem msgs s then some errors
        else some (setField errors category
          (.obj (setField fields "__all__" (.arr (msgs ++ [.str s])))))
      | _ => none
    | _ => none
  | _ => some errors

/-- `MetaEnvelope.set_status`: store the code and auto-add the fixed `api`
category message for the recognised codes. -/
def set_status (rd : ResponseData) (status_code : Nat) : Option ResponseData :=
  let rd := { rd with status := status_code }
  let addApi := fun (msg : String) =>
    (add_errors rd.errors "api" (.str msg)).map (fun es => { rd with errors := es })
  if status_code = 400 then addApi "Invalid API request"
  else if status_code = 401 then addApi "Unauthorized API request"
  else if status_code = 403 then addApi "API request forbidden"
  else if status_code = 404 then addApi "Requested resource was not found"
  else if status_code = 405 then addApi "API method not allowed"
  else if 500 ≤ status_code then addApi "System error occurred"
  else some rd

/-- The status-to-message table actually implemented by `set_status`
(read off the source's `if`/`elif` chain), used to state the error-taxonomy
claim. -/
def apiMessageFor (code : Nat) : Option String :=
  if code = 400 then some "Invalid API request"
  else if code = 401 then some "Unauthorized API request"
  else if code = 403 then some "API request forbidden"
  else if code = 404 then some "Requested resource was not found"
  else if code = 405 then some "API method not allowed"
  else if 500 ≤ code then some "System error occurred"
  else none

/-- The three-way "already enveloped" test on raw dict content:
`set(['meta', 'data']) < set(self.content.keys())` — a *proper* subset,
so it requires `meta`, `data`, and at least one further key. -/
def metaDataProperSubset (fs : List (String × JSON)) : Bool :=
  hasKey fs "meta" && hasKey fs "data" &&
    fs.any (fun p => p.1 ≠ "meta" && p.1 ≠ "data")

/-- The `elif self.response:` branch of `MetaEnvelope.process`, reached when
the raw-content test fails: parse the JSON body, test the already-enveloped
condition, and load `data` (hoisting `meta` into `pagination` for a
paginated list body). State is passed explicitly: `rd` is the current
`self.response_data`. `none` models an exception escaping `process`. -/
def eligibilityResponse (response : Option HttpResponse) (rd : ResponseData) :
    Option (Bool × ResponseData) :=
  match response with
    | some r =>
      match r.content_type with
      | some ct =>
        if strContains ct "json" then
          let orc := r.body
          match pyContains orc "meta", pyContains orc "data" with
          | some hasMeta, some hasData =>
            if !hasMeta || !hasData then
              if hasMeta then
                match pyContains orc "objects" with
                | some true =>
                  match pyIndex orc "meta", pyIndex orc "objects" with
                  | some pg, some objs =>
                    some (true, update_data { rd with pagination := some pg } objs)
                  | _, _ => none
                | some false => some (true, update_data rd orc)
                | none => none
              else
                some (true, update_data rd orc)
            else
              -- "Attempting to envelope response that is already enveloped"
              some (false, rd)
          | _, _ => none
        else some (false, rd)
      | none => some (false, rd)
    | none =>
      -- "Response or data can not be enveloped"
      some (false, rd)

/-- First phase of `MetaEnvelope.process`: the `if`/`elif` chain deciding
`is_eligible` and loading `response_data['data']`. Raw dict content (truthy
and a dict, per `self.content and isinstance(self.content, dict)`) takes
priority over the response; otherwise the response branch runs. -/
def eligibility (response : Option HttpResponse) (content : Option JSON)
    (rd : ResponseData) : Option (Bool × ResponseData) :=
  match response, content with
  | none, none =>
    -- "Envelope initialized without response or raw content"
    some (false, rd)
  | _, _ =>
    match content with
    | some c =>
      if jsonTruthy c then
        match c with
        | .obj fs =>
          if !metaDataProperSubset fs then
            some (true, update_data rd (.obj fs))
          else
            -- "Attempting to envelope response that is already enveloped"
            some (false, rd)
        | _ => eligibilityResponse response rd
      else eligibilityResponse response rd
    | none => eligibilityResponse response rd

/-- The validation step inside `if is_eligible:`: run a `FormValidation`
validator on the candidate data; truthy form errors are merged under the
`form` category and the status forced to 400. -/
def applyValidation (validation : Option Validator) (rd : ResponseData) :
    Option ResponseData :=
  match validation with
  | none => some rd
  | some v =>
    let form_errors := v rd.data
    if form_errors.isEmpty then some rd
    else
      match add_errors rd.errors "form" (.obj form_errors) with
      | none => none
      | some es => set_status { rd with errors := es } 400

/-- The tail of the eligible branch: `if self.contains_errors(): self.set_status(400)`. -/
def finalizeErrors (rd : ResponseData) : Option ResponseData :=
  if contains_errors rd then set_status rd 400 else some rd

/-- `MetaEnvelope.process`. The source re-executes in full on every call
(there is no `is_processed` guard inside `process` itself); it sets
`is_processed` unconditionally and `is_modified` only on the eligible path. -/
def process (e : Envelope) : Option Envelope :=
  match eligibility e.response e.content e.response_data with
  | none => none
  | some (true, rd) =>
    match applyValidation e.validation rd with
    | none => none
    | some rd1 =>
      match finalizeErrors rd1 with
      | none => none
      | some rd2 =>
        some { e with response_data := rd2, is_modified := true, is_processed := true }
  | some (false, rd) =>
    some { e with response_data := rd, is_processed := true }

/-- `json.dumps(self.response_data)`: the serialized envelope body, with
`pagination` present exactly when it was set. -/
def serialize (rd : ResponseData) : JSON :=
  .obj [("meta", .obj
          ([("status", .num (rd.status : Int)), ("errors", .obj rd.errors)] ++
           (match rd.pagination with
            | some pg => [("pagination", pg)]
            | none => [])))
       , ("data", rd.data)]

/-- `MetaEnvelope.build_response`: `HttpResponse(content=json.dumps(...),
content_type=build_content_type('application/json'))`. Django's
`HttpResponse` default status is 200 — no status argument is passed.
`build_content_type` lives in `tastypie.utils.mime` (outside this file)
and yields the JSON media type. -/
def build_response (rd : ResponseData) : HttpResponse :=
  { status_code := 200
    content_type := some "application/json; charset=utf-8"
    body := serialize rd }

/-- `MetaEnvelope.transform`: run `process` when not yet processed, then
either serialize the modified envelope (forcing 400 when errors exist at
status 200), return the original response, or degrade to a 500 envelope. -/
def transform (e : Envelope) : Option (Envelope × HttpResponse) :=
  match (if e.is_processed then some e else process e) with
  | none => none
  | some e1 =>
    if e1.is_modified then
      match
        (if contains_errors e1.response_data && (get_status e1.response_data == 200) then
          set_status e1.response_data 400
        else some e1.response_data) with
      | none => none
      | some rd =>
        some ({ e1 with response_data := rd }, build_response rd)
    else
      match e1.response with
      | some r => some (e1, r)
      | none =>
        match
          (if get_status e1.response_data < 400 then
            set_status e1.response_data 500
          else some e1.response_data) with
        | none => none
        | some rd =>
          some ({ e1 with response_data := rd }, build_response rd)

/-! ### Association-list lemmas -/

theorem lookupField_setField_self (es : List (String × JSON)) (k : String) (v : JSON) :
    lookupField (setField es k v) k = some v := by
  induction es with
  | nil => simp [setField, lookupField]
  | cons p rest ih =>
    by_cases h : p.1 = k
    · simp [setField, lookupField, h]
    · simp [setField, lookupField, h, ih]

theorem lookupField_setField_ne (es : List (String × JSON)) (k k' : String) (v : JSON)
    (h : k' ≠ k) : lookupField (setField es k v) k' = lookupField es k' := by
  induction es with
  | nil => simp [setField, lookupField, Ne.symm h]
  | cons p rest ih =>
    by_cases hp : p.1 = k
    · have hp' : p.1 ≠ k' := by
        rw [hp]
        exact Ne.symm h
      simp [setField, lookupField, hp, hp', Ne.symm h]
    · by_cases hp' : p.1 = k'
      · simp [setField, lookupField, hp, hp', h]
      · simp [setField, lookupField, hp, hp', h, ih]

theorem setField_of_lookupField (es : List (String × JSON)) (k : String) (v : JSON)
    (h : lookupField es k = some v) : setField es k v = es := by
  induction es with
  | nil => simp [lookupField] at h
  | cons p rest ih =>
    by_cases hp : p.1 = k
    · obtain ⟨k0, v0⟩ := p
      simp only at hp
      subst hp
      simp [lookupField] at h
      simp [setField, h]
    · simp [lookupField, hp] at h
      simp [setField, hp, ih h]

theorem setField_ne_nil (es : List (String × JSON)) (k : String) (v : JSON) :
    setField es k v ≠ [] := by
  cases es with
  | nil => simp [setField]
  | cons p rest =>
    by_cases hp : p.1 = k <;> simp [setField, hp]

theorem lookupField_append (es ys : List (String × JSON)) (k : String) :
    lookupField (es ++ ys) k =
      (match lookupField es k with
       | some v => some v
       | none => lookupField ys k) := by
  induction es with
  | nil => simp [lookupField]
  | cons p rest ih =>
    by_cases hp : p.1 = k <;> simp [lookupField, hp, ih]

theorem lookupField_isSome_ne_nil (es : List (String × JSON)) (k : String)
    (h : (lookupField es k).isSome) : es ≠ [] := by
  cases es with
  | nil => simp [lookupField] at h
  | cons p rest => simp

theorem hasKey_iff_lookupField (fs : List (String × JSON)) (k : String) :
    hasKey fs k = true ↔ (lookupField fs k).isSome := by
  induction fs with
  | nil => simp [hasKey, lookupField]
  | cons p rest ih =>
    by_cases hp : p.1 = k
    · simp [hasKey, lookupField, hp]
    · simp [hasKey, lookupField, hp] at ih ⊢
      exact ih

theorem containsStrElem_append_self (msgs : List JSON) (s : String) :
    containsStrElem (msgs ++ [JSON.str s]) s = true := by
  simp [containsStrElem]

/-! ### `add_errors` lemmas -/

/-- The category dict after the `if category not in ...` initialisation step. -/
def initCategory (errors : List (String × JSON)) (category : String) :
    List (String × JSON) :=
  if (lookupField errors category).isNone then
    errors ++ [(category, .obj [("__all__", .arr [])])]
  else errors

theorem add_errors_eq (errors : List (String × JSON)) (category : String) (data : JSON) :
    add_errors errors category data =
      (let errors := initCategory errors category
       match data with
       | .obj d => some (setField errors category (.obj d))
       | .str s =>
         match lookupField errors category with
         | some (.obj fields) =>
           match lookupField fields "__all__" with
           | some (.arr msgs) =>
             if containsStrElem msgs s then some errors
             else some (setField errors category
               (.obj (setField fields "__all__" (.arr (msgs ++ [.str s])))))
           | _ => none
         | _ => none
       | _ => some errors) := rfl

theorem lookupField_initCategory_self (errors : List (String × JSON)) (category : String) :
    lookupField (initCategory errors category) category =
      (match lookupField errors category with
       | some v => some v
       | none => some (.obj [("__all__", .arr [])])) := by
  unfold initCategory
  cases h : lookupField errors category with
  | none => simp [h, lookupField_append, lookupField]
  | some v => simp [h]

theorem lookupField_initCategory_ne (errors : List (String × JSON)) (category c' : String)
    (h : c' ≠ category) :
    lookupField (initCategory errors category) c' = lookupField errors c' := by
  unfold initCategory
  cases hl : lookupField errors category with
  | none =>
    simp only [hl, Option.isNone_none, if_true]
    rw [lookupField_append]
    cases hc : lookupField errors c' with
    | none => simp [lookupField, Ne.symm h]
    | some v => simp
  | some v => simp [hl]

theorem initCategory_ne_nil (errors : List (String × JSON)) (category : String) :
    initCategory errors category ≠ [] := by
  unfold initCategory
  cases h : lookupField errors category with
  | none => simp [h]
  | some v =>
    have hne : errors ≠ [] := lookupField_isSome_ne_nil errors category (by simp [h])
    simp [h, hne]

/-- A dict payload always succeeds and replaces the category. -/
theorem add_errors_obj_spec (errors : List (String × JSON)) (category : String)
    (d : List (String × JSON)) :
    ∃ es', add_errors errors category (.obj d) = some es' ∧
      lookupField es' category = some (.obj d) ∧
      (∀ c', c' ≠ category → lookupField es' c' = lookupField errors c') ∧
      es' ≠ [] := by
  refine ⟨setField (initCategory errors category) category (.obj d), rfl, ?_, ?_, ?_⟩
  · exact lookupField_setField_self _ _ _
  · intro c' hc'
    rw [lookupField_setField_ne _ _ _ _ hc']
    exact lookupField_initCategory_ne _ _ _ hc'
  · exact setField_ne_nil _ _ _

/-- Re-adding the dict a category already holds is a no-op. -/
theorem add_errors_obj_self (errors : List (String × JSON)) (category : String)
    (d : List (String × JSON)) (h : lookupField errors category = some (.obj d)) :
    add_errors errors category (.obj d) = some errors := by
  rw [add_errors_eq]
  simp only [initCategory, h, Option.isNone_some, Bool.false_eq_true, if_false]
  simp [setField_of_lookupField _ _ _ h]

/-- What a successful string payload guarantees: the category holds a dict
whose `__all__` list contains the message, other categories are untouched,
and the result is non-empty. -/
theorem add_errors_str_spec (errors es' : List (String × JSON)) (category s : String)
    (h : add_errors errors category (.str s) = some es') :
    (∃ fields msgs, lookupField es' category = some (.obj fields) ∧
       lookupField fields "__all__" = some (.arr msgs) ∧
       containsStrElem msgs s = true) ∧
    (∀ c', c' ≠ category → lookupField es' c' = lookupField errors c') ∧
    es' ≠ [] := by
  rw [add_errors_eq] at h
  simp only at h
  cases hl : lookupField (initCategory errors category) category with
  | none => simp [hl] at h
  | some v =>
    cases v with
    | obj fields =>
      cases ha : lookupField fields "__all__" with
      | none => simp [hl, ha] at h
      | some w =>
        cases w with
        | arr msgs =>
          by_cases hc : containsStrElem msgs s = true
          · simp [hl, ha, hc] at h
            subst h
            refine ⟨⟨fields, msgs, hl, ha, hc⟩, ?_, initCategory_ne_nil _ _⟩
            intro c' hc'
            exact lookupField_initCategory_ne _ _ _ hc'
          · simp [hl, ha, hc] at h
            subst h
            refine ⟨⟨setField fields "__all__" (.arr (msgs ++ [.str s])),
                     msgs ++ [.str s], ?_, ?_, ?_⟩, ?_, ?_⟩
            · exact lookupField_setField_self _ _ _
            · exact lookupField_setField_self _ _ _
            · exact containsStrElem_append_self _ _
            · intro c' hc'
              rw [lookupField_setField_ne _ _ _ _ hc']
              exact lookupField_initCategory_ne _ _ _ hc'
            · exact setField_ne_nil _ _ _
        | null => simp [hl, ha] at h
        | bool b => simp [hl, ha] at h
        | num n => simp [hl, ha] at h
        | str t => simp [hl, ha] at h
        | obj o => simp [hl, ha] at h
    | null => simp [hl] at h
    | bool b => simp [hl] at h
    | num n => simp [hl] at h
    | str t => simp [hl] at h
    | arr xs => simp [hl] at h

/-- Re-adding a string the category's `__all__` list already contains is a
no-op. -/
theorem add_errors_str_self (errors fields : List (String × JSON)) (msgs : List JSON)
    (category s : String)
    (hcat : lookupField errors category = some (.obj fields))
    (hall : lookupField fields "__all__" = some (.arr msgs))
    (hmem : containsStrElem msgs s = true) :
    add_errors errors category (.str s) = some errors := by
  rw [add_errors_eq]
  simp only [initCategory, hcat, Option.isNone_some, Bool.false_eq_true, if_false]
  simp [hcat, hall, hmem]

/-- A string payload succeeds when the category is either absent or holds a
dict with an `__all__` list. -/
theorem add_errors_str_total (errors : List (String × JSON)) (category s : String)
    (h : lookupField errors category = none ∨
         ∃ fields msgs, lookupField errors category = some (.obj fields) ∧
           lookupField fields "__all__" = some (.arr msgs)) :
    ∃ es', add_errors errors category (.str s) = some es' := by
  rw [add_errors_eq]
  simp only
  rcases h with h | ⟨fields, msgs, hcat, hall⟩
  · rw [lookupField_initCategory_self, h]
    simp [lookupField, containsStrElem]
  · rw [lookupField_initCategory_self, hcat]
    simp only [hall]
    by_cases hc : containsStrElem msgs s = true <;> simp [hc]

/-! ### `set_status` lemmas -/

/-- The shape of the `api` category under which `set_status` cannot raise:
absent, or a dict holding an `__all__` list. -/
def ApiOk (errors : List (String × JSON)) : Prop :=
  lookupField errors "api" = none ∨
    ∃ fields msgs, lookupField errors "api" = some (.obj fields) ∧
      lookupField fields "__all__" = some (.arr msgs)

theorem apiOk_nil : ApiOk [] := Or.inl rfl

theorem set_status_spec (rd rd' : ResponseData) (code : Nat)
    (h : set_status rd code = some rd') :
    rd'.status = code ∧ rd'.data = rd.data ∧ rd'.pagination = rd.pagination ∧
      (∀ c', c' ≠ "api" → lookupField rd'.errors c' = lookupField rd.errors c') := by
  unfold set_status at h
  split_ifs at h with h1 h2 h3 h4 h5 h6 <;>
    first
    | · obtain ⟨es, hes, rfl⟩ := Option.map_eq_some'.mp h
        obtain ⟨-, hother, -⟩ := add_errors_str_spec _ _ _ _ hes
        exact ⟨rfl, rfl, rfl, hother⟩
    | · simp only [Option.some.injEq] at h
        subst h
        exact ⟨rfl, rfl, rfl, fun c' _ => rfl⟩

theorem set_status_apiOk (rd rd' : ResponseData) (code : Nat)
    (h : set_status rd code = some rd') (hok : ApiOk rd.errors) :
    ApiOk rd'.errors := by
  unfold set_status at h
  split_ifs at h with h1 h2 h3 h4 h5 h6 <;>
    first
    | · obtain ⟨es, hes, rfl⟩ := Option.map_eq_some'.mp h
        obtain ⟨⟨fields, msgs, hcat, hall, -⟩, -, -⟩ := add_errors_str_spec _ _ _ _ hes
        exact Or.inr ⟨fields, msgs, hcat, hall⟩
    | · simp only [Option.some.injEq] at h
        subst h
        exact hok

theorem set_status_total (rd : ResponseData) (code : Nat) (hok : ApiOk rd.errors) :
    ∃ rd', set_status rd code = some rd' := by
  have key : ∀ msg : String,
      ∃ rd', Option.map (fun es =>
          ({ status := code, errors := es, pagination := rd.pagination,
             data := rd.data } : ResponseData))
        (add_errors rd.errors "api" (JSON.str msg)) = some rd' := by
    intro msg
    obtain ⟨es', hes'⟩ := add_errors_str_total rd.errors "api" msg hok
    rw [hes']
    exact ⟨_, rfl⟩
  simp only [set_status]
  split_ifs with h1 h2 h3 h4 h5 h6
  · exact key _
  · exact key _
  · exact key _
  · exact key _
  · exact key _
  · exact key _
  · exact ⟨_, rfl⟩

theorem set_status_idem (rd rd' : ResponseData) (code : Nat)
    (h : set_status rd code = some rd') : set_status rd' code = some rd' := by
  simp only [set_status] at h ⊢
  split_ifs at h ⊢ with h1 h2 h3 h4 h5 h6
  all_goals
    first
    | (obtain ⟨es, hes, rfl⟩ := Option.map_eq_some'.mp h
       obtain ⟨⟨fields, msgs, hcat, hall, hmem⟩, -, -⟩ := add_errors_str_spec _ _ _ _ hes
       simp [add_errors_str_self _ fields msgs _ _ hcat hall hmem])
    | (simp only [Option.some.injEq] at h
       subst h
       rfl)

theorem set_status_errors_ne_nil (rd rd' : ResponseData)
    (h : set_status rd 400 = some rd') : rd'.errors ≠ [] := by
  unfold set_status at h
  simp only [if_pos rfl] at h
  obtain ⟨es, hes, rfl⟩ := Option.map_eq_some'.mp h
  obtain ⟨-, -, hne⟩ := add_errors_str_spec _ _ _ _ hes
  exact hne

/-! ### `applyValidation` and `finalizeErrors` lemmas -/

theorem applyValidation_spec (v : Option Validator) (rd rd' : ResponseData)
    (h : applyValidation v rd = some rd') :
    rd'.data = rd.data ∧ rd'.pagination = rd.pagination := by
  unfold applyValidation at h
  cases v with
  | none =>
    simp only [Option.some.injEq] at h
    subst h
    exact ⟨rfl, rfl⟩
  | some f =>
    by_cases hfe : (f rd.data).isEmpty
    · simp only [hfe, if_true, Option.some.injEq] at h
      subst h
      exact ⟨rfl, rfl⟩
    · simp only [hfe, Bool.false_eq_true, if_false] at h
      cases hes : add_errors rd.errors "form" (.obj (f rd.data)) with
      | none => simp [hes] at h
      | some es =>
        simp only [hes] at h
        obtain ⟨-, hdata, hpag, -⟩ := set_status_spec _ _ _ h
        exact ⟨hdata, hpag⟩

theorem applyValidation_apiOk (v : Option Validator) (rd rd' : ResponseData)
    (h : applyValidation v rd = some rd') (hok : ApiOk rd.errors) :
    ApiOk rd'.errors := by
  unfold applyValidation at h
  cases v with
  | none =>
    simp only [Option.some.injEq] at h
    subst h
    exact hok
  | some f =>
    by_cases hfe : (f rd.data).isEmpty
    · simp only [hfe, if_true, Option.some.injEq] at h
      subst h
      exact hok
    · simp only [hfe, Bool.false_eq_true, if_false] at h
      cases hes : add_errors rd.errors "form" (.obj (f rd.data)) with
      | none => simp [hes] at h
      | some es =>
        simp only [hes] at h
        have hesok : ApiOk es := by
          obtain ⟨es0, hes0, -, hother, -⟩ := add_errors_obj_spec rd.errors "form" (f rd.data)
          rw [hes0] at hes
          cases hes
          rcases hok with hnone | ⟨fields, msgs, hcat, hall⟩
          · exact Or.inl ((hother "api" (by decide)).trans hnone)
          · exact Or.inr ⟨fields, msgs, (hother "api" (by decide)).trans hcat, hall⟩
        exact set_status_apiOk _ _ _ h hesok

theorem applyValidation_total (v : Option Validator) (rd : ResponseData)
    (hok : ApiOk rd.errors) : ∃ rd', applyValidation v rd = some rd' := by
  unfold applyValidation
  cases v with
  | none => exact ⟨_, rfl⟩
  | some f =>
    by_cases hfe : (f rd.data).isEmpty
    · simp only [hfe, if_true]
      exact ⟨_, rfl⟩
    · simp only [hfe, Bool.false_eq_true, if_false]
      obtain ⟨es, hes, -, hother, -⟩ := add_errors_obj_spec rd.errors "form" (f rd.data)
      rw [hes]
      have hesok : ApiOk es := by
        rcases hok with hnone | ⟨fields, msgs, hcat, hall⟩
        · exact Or.inl ((hother "api" (by decide)).trans hnone)
        · exact Or.inr ⟨fields, msgs, (hother "api" (by decide)).trans hcat, hall⟩
      exact set_status_total { rd with errors := es } 400 hesok

theorem finalizeErrors_spec (rd rd' : ResponseData)
    (h : finalizeErrors rd = some rd') :
    rd'.data = rd.data ∧ rd'.pagination = rd.pagination := by
  unfold finalizeErrors at h
  by_cases hc : contains_errors rd = true
  · simp only [hc, if_true] at h
    obtain ⟨-, hdata, hpag, -⟩ := set_status_spec _ _ _ h
    exact ⟨hdata, hpag⟩
  · simp only [hc, if_false] at h
    cases h
    exact ⟨rfl, rfl⟩

theorem finalizeErrors_apiOk (rd rd' : ResponseData)
    (h : finalizeErrors rd = some rd') (hok : ApiOk rd.errors) : ApiOk rd'.errors := by
  unfold finalizeErrors at h
  by_cases hc : contains_errors rd = true
  · simp only [hc, if_true] at h
    exact set_status_apiOk _ _ _ h hok
  · simp only [hc, if_false] at h
    cases h
    exact hok

theorem finalizeErrors_total (rd : ResponseData) (hok : ApiOk rd.errors) :
    ∃ rd', finalizeErrors rd = some rd' := by
  unfold finalizeErrors
  by_cases hc : contains_errors rd = true
  · simp only [hc, if_true]
    exact set_status_total rd 400 hok
  · simp only [hc, if_false]
    exact ⟨_, rfl⟩

/-- After the eligible tail of `process`, an envelope that still signals an
error necessarily carries status 400: the source calls `set_status(400)`
unconditionally, overwriting any pre-existing code. -/
theorem finalizeErrors_contains (rd rd' : ResponseData)
    (h : finalizeErrors rd = some rd') (hc : contains_errors rd' = true) :
    rd'.status = 400 := by
  unfold finalizeErrors at h
  by_cases hc0 : contains_errors rd = true
  · simp only [hc0, if_true] at h
    exact (set_status_spec _ _ _ h).1
  · simp only [hc0, if_false] at h
    cases h
    exact absurd hc hc0

/-- Re-running the validation-and-finalize tail of `process` on its own
output changes nothing. -/
theorem processTail_idem (v : Option Validator) (rd rd1 rd2 : ResponseData)
    (hv : applyValidation v rd = some rd1) (hf : finalizeErrors rd1 = some rd2) :
    applyValidation v rd2 = some rd2 ∧ finalizeErrors rd2 = some rd2 ∧
      rd2.data = rd.data ∧ rd2.pagination = rd.pagination := by
  obtain ⟨hd1, hp1⟩ := applyValidation_spec _ _ _ hv
  obtain ⟨hd2, hp2⟩ := finalizeErrors_spec _ _ hf
  have hfin_idem : finalizeErrors rd2 = some rd2 := by
    unfold finalizeErrors at hf ⊢
    by_cases hc1 : contains_errors rd1 = true
    · simp only [hc1, if_true] at hf
      have h400 : rd2.status = 400 := (set_status_spec _ _ _ hf).1
      have hc2 : contains_errors rd2 = true := by
        simp [contains_errors, h400]
      simp only [hc2, if_true]
      exact set_status_idem _ _ _ hf
    · simp only [hc1, Bool.false_eq_true, if_false] at hf
      cases hf
      simp only [hc1, Bool.false_eq_true, if_false]
  refine ⟨?_, hfin_idem, hd2.trans hd1, hp2.trans hp1⟩
  -- second run of the validator is a no-op
  unfold applyValidation at hv ⊢
  cases v with
  | none =>
    simp only [Option.some.injEq] at hv ⊢
  | some f =>
    have hdata : f rd2.data = f rd.data := by rw [hd2, hd1]
    by_cases hfe : (f rd.data).isEmpty
    · simp only [hfe, if_true, Option.some.injEq] at hv
      simp only [hdata, hfe, if_true]
    · simp only [hfe, Bool.false_eq_true, if_false] at hv
      cases hes : add_errors rd.errors "form" (.obj (f rd.data)) with
      | none => simp [hes] at hv
      | some es =>
        simp only [hes] at hv
        -- rd1 came from `set_status ... 400`; finalize re-ran `set_status 400`,
        -- so rd2 = rd1 and the `form` category already holds exactly these errors
        have h400 : rd1.status = 400 := (set_status_spec _ _ _ hv).1
        have hrd21 : rd2 = rd1 := by
          unfold finalizeErrors at hf
          have hc1 : contains_errors rd1 = true := by
            simp [contains_errors, h400]
          simp only [hc1, if_true] at hf
          have := set_status_idem _ _ _ hv
          -- `set_status rd1 400 = some rd1` and `set_status rd1 400 = some rd2`
          rw [this] at hf
          cases hf
          rfl
        subst hrd21
        obtain ⟨es0, hes0, hcat0, -, -⟩ := add_errors_obj_spec rd.errors "form" (f rd.data)
        rw [hes0] at hes
        cases hes
        have hcat2 : lookupField rd2.errors "form" = some (.obj (f rd.data)) := by
          have hother := (set_status_spec _ _ _ hv).2.2.2
          rw [hother "form" (by decide)]
          exact hcat0
        simp only [hdata, hfe, Bool.false_eq_true, if_false]
        rw [show add_errors rd2.errors "form" (.obj (f rd.data)) = some rd2.errors from
          add_errors_obj_self _ _ _ hcat2]
        show set_status rd2 400 = some rd2
        exact set_status_idem _ _ _ hv

/-! ### `eligibility` lemmas

The eligibility phase only reads `response`/`content` and only writes the
`data`/`pagination` slots of `response_data`; re-running it on a state whose
`data`/`pagination` already hold the loaded values is the identity. -/

theorem eligibilityResponse_spec (r : Option HttpResponse) (rd : ResponseData)
    (b : Bool) (rd' : ResponseData)
    (h : eligibilityResponse r rd = some (b, rd')) :
    rd'.status = rd.status ∧ rd'.errors = rd.errors ∧
    (b = false → rd' = rd ∧
      ∀ rd2 : ResponseData, eligibilityResponse r rd2 = some (false, rd2)) ∧
    (b = true → ∀ rd2 : ResponseData, rd2.data = rd'.data →
      rd2.pagination = rd'.pagination →
      eligibilityResponse r rd2 = some (true, rd2)) := by
  cases r with
  | none =>
    simp only [eligibilityResponse, Option.some.injEq, Prod.mk.injEq] at h
    obtain ⟨hb, hrd⟩ := h
    subst hb
    subst hrd
    exact ⟨rfl, rfl, fun _ => ⟨rfl, fun rd2 => rfl⟩, fun hb => Bool.noConfusion hb⟩
  | some resp =>
    cases hct : resp.content_type with
    | none =>
      simp only [eligibilityResponse, hct, Option.some.injEq, Prod.mk.injEq] at h
      obtain ⟨hb, hrd⟩ := h
      subst hb
      subst hrd
      exact ⟨rfl, rfl,
        fun _ => ⟨rfl, fun rd2 => by simp [eligibilityResponse, hct]⟩,
        fun hb => Bool.noConfusion hb⟩
    | some ct =>
      by_cases hj : strContains ct "json" = true
      · cases hm : pyContains resp.body "meta" with
        | none => simp [eligibilityResponse, hct, hj, hm] at h
        | some hasMeta =>
          cases hd : pyContains resp.body "data" with
          | none => simp [eligibilityResponse, hct, hj, hm, hd] at h
          | some hasData =>
            by_cases he : (!hasMeta || !hasData) = true
            · cases hasMeta with
              | false =>
                simp only [eligibilityResponse, hct, hj, if_true, hm, hd, he,
                  Bool.false_eq_true, if_false, Option.some.injEq, Prod.mk.injEq] at h
                obtain ⟨hb, hrd⟩ := h
                subst hb
                subst hrd
                refine ⟨rfl, rfl, fun hb => Bool.noConfusion hb, fun _ rd2 hdd hpp => ?_⟩
                simp only [update_data] at hdd hpp
                simp only [eligibilityResponse, hct, hj, if_true, hm, hd, he,
                  Bool.false_eq_true, if_false, Option.some.injEq, Prod.mk.injEq]
                rw [← hdd]
                exact ⟨trivial, rfl⟩
              | true =>
                have hdf : hasData = false := by simpa using he
                subst hdf
                cases ho : pyContains resp.body "objects" with
                | none => simp [eligibilityResponse, hct, hj, hm, hd, ho] at h
                | some hasObjs =>
                  cases hasObjs with
                  | true =>
                    cases hpg : pyIndex resp.body "meta" with
                    | none => simp [eligibilityResponse, hct, hj, hm, hd, ho, hpg] at h
                    | some pg =>
                      cases hob : pyIndex resp.body "objects" with
                      | none =>
                        simp [eligibilityResponse, hct, hj, hm, hd, ho, hpg, hob] at h
                      | some objs =>
                        simp only [eligibilityResponse, hct, hj, if_true, hm, hd, ho,
                          hpg, hob, Bool.not_true, Bool.not_false, Bool.false_or,
                          Option.some.injEq, Prod.mk.injEq] at h
                        obtain ⟨hb, hrd⟩ := h
                        subst hb
                        subst hrd
                        refine ⟨rfl, rfl, fun hb => Bool.noConfusion hb,
                          fun _ rd2 hdd hpp => ?_⟩
                        simp only [update_data] at hdd hpp
                        simp only [eligibilityResponse, hct, hj, if_true, hm, hd, ho,
                          hpg, hob, Bool.not_true, Bool.not_false, Bool.false_or,
                          Option.some.injEq, Prod.mk.injEq]
                        rw [← hdd, ← hpp]
                        exact ⟨trivial, rfl⟩
                  | false =>
                    simp only [eligibilityResponse, hct, hj, if_true, hm, hd, ho,
                      Bool.not_true, Bool.not_false, Bool.false_or,
                      Option.some.injEq, Prod.mk.injEq] at h
                    obtain ⟨hb, hrd⟩ := h
                    subst hb
                    subst hrd
                    refine ⟨rfl, rfl, fun hb => Bool.noConfusion hb,
                      fun _ rd2 hdd hpp => ?_⟩
                    simp only [update_data] at hdd hpp
                    simp only [eligibilityResponse, hct, hj, if_true, hm, hd, ho,
                      Bool.not_true, Bool.not_false, Bool.false_or,
                      Option.some.injEq, Prod.mk.injEq]
                    rw [← hdd]
                    exact ⟨trivial, rfl⟩
            · simp only [eligibilityResponse, hct, hj, if_true, hm, hd, he,
                Bool.false_eq_true, if_false, Option.some.injEq, Prod.mk.injEq] at h
              obtain ⟨hb, hrd⟩ := h
              subst hb
              subst hrd
              refine ⟨rfl, rfl, fun _ => ⟨rfl, fun rd2 => ?_⟩,
                fun hb => Bool.noConfusion hb⟩
              simp [eligibilityResponse, hct, hj, hm, hd, he]
      · simp only [eligibilityResponse, hct, hj, Bool.false_eq_true, if_false,
          Option.some.injEq, Prod.mk.injEq] at h
        obtain ⟨hb, hrd⟩ := h
        subst hb
        subst hrd
        exact ⟨rfl, rfl,
          fun _ => ⟨rfl, fun rd2 => by simp [eligibilityResponse, hct, hj]⟩,
          fun hb => Bool.noConfusion hb⟩

theorem eligibility_spec (r : Option HttpResponse) (c : Option JSON)
    (rd : ResponseData) (b : Bool) (rd' : ResponseData)
    (h : eligibility r c rd = some (b, rd')) :
    rd'.status = rd.status ∧ rd'.errors = rd.errors ∧
    (b = false → rd' = rd ∧
      ∀ rd2 : ResponseData, eligibility r c rd2 = some (false, rd2)) ∧
    (b = true → ∀ rd2 : ResponseData, rd2.data = rd'.data →
      rd2.pagination = rd'.pagination →
      eligibility r c rd2 = some (true, rd2)) := by
  cases c with
  | none =>
    cases r with
    | none =>
      simp only [eligibility, Option.some.injEq, Prod.mk.injEq] at h
      obtain ⟨hb, hrd⟩ := h
      subst hb
      subst hrd
      exact ⟨rfl, rfl, fun _ => ⟨rfl, fun rd2 => rfl⟩, fun hb => Bool.noConfusion hb⟩
    | some resp =>
      simp only [eligibility] at h
      obtain ⟨h1, h2, h3, h4⟩ := eligibilityResponse_spec _ _ _ _ h
      refine ⟨h1, h2, fun hb => ⟨(h3 hb).1, fun rd2 => ?_⟩,
        fun hb rd2 hdd hpp => ?_⟩
      · simp only [eligibility]
        exact (h3 hb).2 rd2
      · simp only [eligibility]
        exact h4 hb rd2 hdd hpp
  | some cj =>
    have delegate :
        (∀ rd0, eligibility r (some cj) rd0 = eligibilityResponse r rd0) →
        (rd'.status = rd.status ∧ rd'.errors = rd.errors ∧
          (b = false → rd' = rd ∧
            ∀ rd2 : ResponseData, eligibility r (some cj) rd2 = some (false, rd2)) ∧
          (b = true → ∀ rd2 : ResponseData, rd2.data = rd'.data →
            rd2.pagination = rd'.pagination →
            eligibility r (some cj) rd2 = some (true, rd2))) := by
      intro heq
      rw [heq rd] at h
      obtain ⟨h1, h2, h3, h4⟩ := eligibilityResponse_spec _ _ _ _ h
      refine ⟨h1, h2, fun hb => ⟨(h3 hb).1, fun rd2 => ?_⟩,
        fun hb rd2 hdd hpp => ?_⟩
      · rw [heq rd2]
        exact (h3 hb).2 rd2
      · rw [heq rd2]
        exact h4 hb rd2 hdd hpp
    by_cases ht : jsonTruthy cj = true
    · cases cj with
      | obj fs =>
        by_cases hsub : metaDataProperSubset fs = true
        · cases r with
          | none =>
            simp only [eligibility, ht, if_true, hsub, Bool.not_true,
              Bool.false_eq_true, if_false, Option.some.injEq, Prod.mk.injEq] at h
            obtain ⟨hb, hrd⟩ := h
            subst hb
            subst hrd
            refine ⟨rfl, rfl, fun _ => ⟨rfl, fun rd2 => ?_⟩,
              fun hb => Bool.noConfusion hb⟩
            simp [eligibility, ht, hsub]
          | some resp =>
            simp only [eligibility, ht, if_true, hsub, Bool.not_true,
              Bool.false_eq_true, if_false, Option.some.injEq, Prod.mk.injEq] at h
            obtain ⟨hb, hrd⟩ := h
            subst hb
            subst hrd
            refine ⟨rfl, rfl, fun _ => ⟨rfl, fun rd2 => ?_⟩,
              fun hb => Bool.noConfusion hb⟩
            simp [eligibility, ht, hsub]
        · cases r with
          | none =>
            simp only [eligibility, ht, if_true, hsub, Bool.not_false,
              Option.some.injEq, Prod.mk.injEq] at h
            obtain ⟨hb, hrd⟩ := h
            subst hb
            subst hrd
            refine ⟨rfl, rfl, fun hb => Bool.noConfusion hb, fun _ rd2 hdd hpp => ?_⟩
            simp only [update_data] at hdd hpp
            simp only [eligibility, ht, if_true, hsub, Bool.not_false,
              Option.some.injEq, Prod.mk.injEq]
            rw [← hdd]
            exact ⟨trivial, rfl⟩
          | some resp =>
            simp only [eligibility, ht, if_true, hsub, Bool.not_false,
              Option.some.injEq, Prod.mk.injEq] at h
            obtain ⟨hb, hrd⟩ := h
            subst hb
            subst hrd
            refine ⟨rfl, rfl, fun hb => Bool.noConfusion hb, fun _ rd2 hdd hpp => ?_⟩
            simp only [update_data] at hdd hpp
            simp only [eligibility, ht, if_true, hsub, Bool.not_false,
              Option.some.injEq, Prod.mk.injEq]
            rw [← hdd]
            exact ⟨trivial, rfl⟩
      | null => exact delegate (fun rd0 => by simp [eligibility, ht] at ht ⊢)
      | bool bv => exact delegate (fun rd0 => by cases r <;> simp [eligibility, ht])
      | num n => exact delegate (fun rd0 => by cases r <;> simp [eligibility, ht])
      | str s => exact delegate (fun rd0 => by cases r <;> simp [eligibility, ht])
      | arr xs => exact delegate (fun rd0 => by cases r <;> simp [eligibility, ht])
    · cases r with
      | none => exact delegate (fun rd0 => by simp [eligibility, ht])
      | some resp => exact delegate (fun rd0 => by simp [eligibility, ht])

/-! ### `process` lemmas -/

theorem process_fields (e e' : Envelope) (h : process e = some e') :
    e'.validation = e.validation ∧ e'.response = e.response ∧
      e'.content = e.content ∧ e'.is_processed = true := by
  unfold process at h
  cases he : eligibility e.response e.content e.response_data with
  | none => simp [he] at h
  | some p =>
    obtain ⟨b, rd⟩ := p
    cases b with
    | false =>
      simp only [he, Option.some.injEq] at h
      subst h
      exact ⟨rfl, rfl, rfl, rfl⟩
    | true =>
      simp only [he] at h
      cases hv : applyValidation e.validation rd with
      | none => simp [hv] at h
      | some rd1 =>
        simp only [hv] at h
        cases hf : finalizeErrors rd1 with
        | none => simp [hf] at h
        | some rd2 =>
          simp only [hf, Option.some.injEq] at h
          subst h
          exact ⟨rfl, rfl, rfl, rfl⟩

/-- `process` has no internal re-entry guard, but re-running it on its own
output is the identity: the data load, validation merge and status forcing
all reproduce the state they already produced. -/
theorem process_idem (e e' : Envelope) (h : process e = some e') :
    process e' = some e' := by
  unfold process at h
  cases he : eligibility e.response e.content e.response_data with
  | none => simp [he] at h
  | some p =>
    obtain ⟨b, rd⟩ := p
    obtain ⟨hst, herr, hfalse, htrue⟩ := eligibility_spec _ _ _ _ _ he
    cases b with
    | false =>
      simp only [he, Option.some.injEq] at h
      subst h
      obtain ⟨hrd, hstable⟩ := hfalse rfl
      simp only [process, hstable rd]
    | true =>
      simp only [he] at h
      cases hv : applyValidation e.validation rd with
      | none => simp [hv] at h
      | some rd1 =>
        simp only [hv] at h
        cases hf : finalizeErrors rd1 with
        | none => simp [hf] at h
        | some rd2 =>
          simp only [hf, Option.some.injEq] at h
          subst h
          obtain ⟨hv2, hf2, hdata, hpag⟩ := processTail_idem e.validation rd rd1 rd2 hv hf
          have helig2 : eligibility e.response e.content rd2 = some (true, rd2) :=
            htrue rfl rd2 hdata hpag
          simp only [process, helig2, hv2, hf2]

theorem hasKey_lookup (fs : List (String × JSON)) (k : String)
    (h : hasKey fs k = true) : ∃ v, lookupField fs k = some v :=
  Option.isSome_iff_exists.mp ((hasKey_iff_lookupField fs k).mp h)

/-- The eligibility phase cannot raise when the response body (if any) is a
JSON object: the `TypeError`/`KeyError` paths need a non-dict body. -/
theorem eligibilityResponse_total (r : Option HttpResponse) (rd : ResponseData)
    (hr : ∀ rr, r = some rr → ∃ fs, rr.body = JSON.obj fs) :
    ∃ b rd', eligibilityResponse r rd = some (b, rd') := by
  cases r with
  | none => exact ⟨false, rd, rfl⟩
  | some resp =>
    obtain ⟨fs, hbody⟩ := hr resp rfl
    cases hct : resp.content_type with
    | none => exact ⟨false, rd, by simp [eligibilityResponse, hct]⟩
    | some ct =>
      by_cases hj : strContains ct "json" = true
      · by_cases hm : hasKey fs "meta" = true
        · by_cases hd : hasKey fs "data" = true
          · exact ⟨false, rd, by
              simp [eligibilityResponse, hct, hj, hbody, pyContains, hm, hd]⟩
          · by_cases ho : hasKey fs "objects" = true
            · obtain ⟨pg, hpg⟩ := hasKey_lookup fs "meta" hm
              obtain ⟨objs, hob⟩ := hasKey_lookup fs "objects" ho
              exact ⟨true, update_data { rd with pagination := some pg } objs, by
                simp [eligibilityResponse, hct, hj, hbody, pyContains, pyIndex,
                  hm, hd, ho, hpg, hob]⟩
            · exact ⟨true, update_data rd (JSON.obj fs), by
                simp [eligibilityResponse, hct, hj, hbody, pyContains, hm, hd, ho]⟩
        · exact ⟨true, update_data rd (JSON.obj fs), by
            simp [eligibilityResponse, hct, hj, hbody, pyContains, hm]⟩
      · exact ⟨false, rd, by simp [eligibilityResponse, hct, hj]⟩

theorem eligibility_total (r : Option HttpResponse) (c : Option JSON)
    (rd : ResponseData)
    (hr : ∀ rr, r = some rr → ∃ fs, rr.body = JSON.obj fs) :
    ∃ b rd', eligibility r c rd = some (b, rd') := by
  cases c with
  | none =>
    cases r with
    | none => exact ⟨false, rd, rfl⟩
    | some resp =>
      obtain ⟨b, rd', hres⟩ := eligibilityResponse_total (some resp) rd hr
      exact ⟨b, rd', by simp only [eligibility]; exact hres⟩
  | some cj =>
    have viaResponse : (∀ rd0, eligibility r (some cj) rd0 = eligibilityResponse r rd0) →
        ∃ b rd', eligibility r (some cj) rd = some (b, rd') := by
      intro heq
      obtain ⟨b, rd', hres⟩ := eligibilityResponse_total r rd hr
      exact ⟨b, rd', by rw [heq rd]; exact hres⟩
    by_cases ht : jsonTruthy cj = true
    · cases cj with
      | obj fs =>
        by_cases hsub : metaDataProperSubset fs = true
        · exact ⟨false, rd, by cases r <;> simp [eligibility, ht, hsub]⟩
        · exact ⟨true, update_data rd (JSON.obj fs), by
            cases r <;> simp [eligibility, ht, hsub]⟩
      | null => exact viaResponse (fun rd0 => by simp [jsonTruthy] at ht)
      | bool bv => exact viaResponse (fun rd0 => by cases r <;> simp [eligibility, ht])
      | num n => exact viaResponse (fun rd0 => by cases r <;> simp [eligibility, ht])
      | str s => exact viaResponse (fun rd0 => by cases r <;> simp [eligibility, ht])
      | arr xs => exact viaResponse (fun rd0 => by cases r <;> simp [eligibility, ht])
    · cases r with
      | none => exact viaResponse (fun rd0 => by simp [eligibility, ht])
      | some resp => exact viaResponse (fun rd0 => by simp [eligibility, ht])

theorem process_total (e : Envelope)
    (hok : ApiOk e.response_data.errors)
    (hr : ∀ rr, e.response = some rr → ∃ fs, rr.body = JSON.obj fs) :
    ∃ e', process e = some e' := by
  obtain ⟨b, rd, he⟩ := eligibility_total e.response e.content e.response_data hr
  obtain ⟨hst, herr, hfalse, htrue⟩ := eligibility_spec _ _ _ _ _ he
  cases b with
  | false =>
    exact ⟨{ e with response_data := rd, is_processed := true },
      by simp [process, he]⟩
  | true =>
    have hokrd : ApiOk rd.errors := by rw [herr]; exact hok
    obtain ⟨rd1, hv⟩ := applyValidation_total e.validation rd hokrd
    have hok1 : ApiOk rd1.errors := applyValidation_apiOk _ _ _ hv hokrd
    obtain ⟨rd2, hf⟩ := finalizeErrors_total rd1 hok1
    exact ⟨{ e with response_data := rd2, is_modified := true, is_processed := true },
      by simp [process, he, hv, hf]⟩

theorem process_apiOk (e e' : Envelope) (h : process e = some e')
    (hok : ApiOk e.response_data.errors) : ApiOk e'.response_data.errors := by
  unfold process at h
  cases he : eligibility e.response e.content e.response_data with
  | none => simp [he] at h
  | some p =>
    obtain ⟨b, rd⟩ := p
    obtain ⟨hst, herr, hfalse, htrue⟩ := eligibility_spec _ _ _ _ _ he
    have hokrd : ApiOk rd.errors := by rw [herr]; exact hok
    cases b with
    | false =>
      simp only [he, Option.some.injEq] at h
      subst h
      exact hokrd
    | true =>
      simp only [he] at h
      cases hv : applyValidation e.validation rd with
      | none => simp [hv] at h
      | some rd1 =>
        simp only [hv] at h
        cases hf : finalizeErrors rd1 with
        | none => simp [hf] at h
        | some rd2 =>
          simp only [hf, Option.some.injEq] at h
          subst h
          exact finalizeErrors_apiOk _ _ hf (applyValidation_apiOk _ _ _ hv hokrd)

/-- For an envelope that was not yet modified, `process` marking it modified
means the eligible branch ran, and then an error state implies the
(unconditionally forced) status 400. -/
theorem process_modified_spec (e e' : Envelope) (h : process e = some e')
    (hm : e.is_modified = false) (hmod : e'.is_modified = true) :
    contains_errors e'.response_data = true → e'.response_data.status = 400 := by
  unfold process at h
  cases he : eligibility e.response e.content e.response_data with
  | none => simp [he] at h
  | some p =>
    obtain ⟨b, rd⟩ := p
    cases b with
    | false =>
      simp only [he, Option.some.injEq] at h
      subst h
      rw [hm] at hmod
      exact absurd hmod (by decide)
    | true =>
      simp only [he] at h
      cases hv : applyValidation e.validation rd with
      | none => simp [hv] at h
      | some rd1 =>
        simp only [hv] at h
        cases hf : finalizeErrors rd1 with
        | none => simp [hf] at h
        | some rd2 =>
          simp only [hf, Option.some.injEq] at h
          subst h
          exact finalizeErrors_contains rd1 rd2 hf

/-! ### `transform` lemmas -/

theorem transform_idem (e e1 : Envelope) (r1 : HttpResponse)
    (h : transform e = some (e1, r1)) : transform e1 = some (e1, r1) := by
  unfold transform at h
  cases hstep : (if e.is_processed = true then some e else process e) with
  | none => simp [hstep] at h
  | some e0 =>
    have hproc0 : e0.is_processed = true := by
      by_cases hp : e.is_processed = true
      · simp only [hp, if_true, Option.some.injEq] at hstep
        rw [← hstep]
        exact hp
      · simp only [hp, Bool.false_eq_true, if_false] at hstep
        exact (process_fields _ _ hstep).2.2.2
    simp only [hstep] at h
    by_cases hmod : e0.is_modified = true
    · simp only [hmod, if_true] at h
      by_cases hc :
          (contains_errors e0.response_data && (get_status e0.response_data == 200)) = true
      · simp only [hc, if_true] at h
        cases hss : set_status e0.response_data 400 with
        | none => simp [hss] at h
        | some rd =>
          simp only [hss, Option.some.injEq, Prod.mk.injEq] at h
          obtain ⟨he1, hr1⟩ := h
          subst he1
          subst hr1
          have h400 : rd.status = 400 := (set_status_spec _ _ _ hss).1
          have hcond2 : (contains_errors rd && (get_status rd == 200)) = false := by
            simp [get_status, h400]
          unfold transform
          simp only [hproc0, if_true, hmod, hcond2, Bool.false_eq_true, if_false]
      · simp only [hc, Bool.false_eq_true, if_false, Option.some.injEq,
          Prod.mk.injEq] at h
        obtain ⟨he1, hr1⟩ := h
        subst he1
        subst hr1
        unfold transform
        simp only [hproc0, if_true, hmod, hc, Bool.false_eq_true, if_false]
    · simp only [hmod, Bool.false_eq_true, if_false] at h
      cases hre : e0.response with
      | some rr =>
        simp only [hre, Option.some.injEq, Prod.mk.injEq] at h
        obtain ⟨he1, hr1⟩ := h
        subst he1
        subst hr1
        unfold transform
        simp only [hproc0, if_true, hmod, Bool.false_eq_true, if_false, hre]
      | none =>
        simp only [hre] at h
        by_cases hlt : get_status e0.response_data < 400
        · simp only [hlt, if_true] at h
          cases hss : set_status e0.response_data 500 with
          | none => simp [hss] at h
          | some rd =>
            simp only [hss, Option.some.injEq, Prod.mk.injEq] at h
            obtain ⟨he1, hr1⟩ := h
            subst he1
            subst hr1
            have h500 : rd.status = 500 := (set_status_spec _ _ _ hss).1
            have hnlt : ¬ get_status rd < 400 := by simp [get_status, h500]
            unfold transform
            simp only [hproc0, if_true, hmod, Bool.false_eq_true, if_false, hre, hnlt]
        · simp only [hlt, if_false, Option.some.injEq, Prod.mk.injEq] at h
          obtain ⟨he1, hr1⟩ := h
          subst he1
          subst hr1
          unfold transform
          simp only [hproc0, if_true, hmod, Bool.false_eq_true, if_false, hre, hlt]

/-- A freshly constructed envelope whose response body (if any) is a JSON
object is transformed without any exception: every failure mode inside
`process`/`transform` ends in a well-formed response value. -/
theorem transform_total_fresh (v : Option Validator) (r : Option HttpResponse)
    (c : Option JSON)
    (hr : ∀ rr, r = some rr → ∃ fs, rr.body = JSON.obj fs) :
    ∃ e1 r1, transform (mkEnvelope v r c) = some (e1, r1) := by
  have hok : ApiOk (mkEnvelope v r c).response_data.errors := apiOk_nil
  obtain ⟨e', hp⟩ := process_total (mkEnvelope v r c) hok hr
  have hstep : (if (mkEnvelope v r c).is_processed = true then some (mkEnvelope v r c)
      else process (mkEnvelope v r c)) = some e' := by
    simp only [mkEnvelope, Bool.false_eq_true, if_false]
    exact hp
  unfold transform
  simp only [hstep]
  by_cases hmod : e'.is_modified = true
  · have hcont : contains_errors e'.response_data = true → e'.response_data.status = 400 :=
      process_modified_spec _ _ hp rfl hmod
    have hcf : (contains_errors e'.response_data &&
        (get_status e'.response_data == 200)) = false := by
      cases hcc : contains_errors e'.response_data with
      | false => simp
      | true =>
        have h400 := hcont hcc
        simp [get_status, h400]
    simp only [hmod, if_true, hcf, Bool.false_eq_true, if_false]
    exact ⟨_, _, rfl⟩
  · simp only [hmod, Bool.false_eq_true, if_false]
    cases hre : e'.response with
    | some rr => exact ⟨_, _, rfl⟩
    | none =>
      by_cases hlt : get_status e'.response_data < 400
      · have hok' : ApiOk e'.response_data.errors := process_apiOk _ _ hp hok
        obtain ⟨rd', hss⟩ := set_status_total e'.response_data 500 hok'
        simp only [hlt, if_true, hss]
        exact ⟨_, _, rfl⟩
      · simp only [hlt, if_false]
        exact ⟨_, _, rfl⟩

/-! ### Claim theorems -/

/-- C1: the claimed invariant "errors non-empty ⟹ output `data` empty and
status ≥ 400" is violated by the code: `clear_data` exists but is never
invoked, so at a 404 JSON response with body `{"a": 1}` the processed
envelope has a non-empty errors mapping and status 400, yet `data` still
holds the payload instead of being empty. -/
theorem c1_errors_nonempty_but_data_not_cleared :
    ∃ e', process (mkEnvelope none
        (some ⟨404, some "application/json", .obj [("a", .num 1)]⟩) none) = some e' ∧
      e'.response_data.errors ≠ [] ∧
      400 ≤ e'.response_data.status ∧
      e'.response_data.data = .obj [("a", .num 1)] ∧
      e'.response_data.data ≠ .obj [] := by
  refine ⟨⟨none, some ⟨404, some "application/json", .obj [("a", .num 1)]⟩, none,
      true, true,
      ⟨400, [("api", .obj [("__all__", .arr [.str "Invalid API request"])])],
        none, .obj [("a", .num 1)]⟩⟩, rfl, ?_, ?_, rfl, ?_⟩
  · simp
  · decide
  · simp

/-- C2 counterexample: the claim says a status already above 400 (e.g. 404)
is preserved; the code calls `set_status(400)` unconditionally, so a 404
response comes out of `process` with status 400, not 404. -/
theorem c2_counterexample_404_overwritten :
    ∃ e', process (mkEnvelope none
        (some ⟨404, some "application/json", .obj [("a", .num 1)]⟩) none) = some e' ∧
      contains_errors e'.response_data = true ∧
      e'.response_data.status = 400 ∧
      e'.response_data.status ≠ 404 := by
  refine ⟨⟨none, some ⟨404, some "application/json", .obj [("a", .num 1)]⟩, none,
      true, true,
      ⟨400, [("api", .obj [("__all__", .arr [.str "Invalid API request"])])],
        none, .obj [("a", .num 1)]⟩⟩, rfl, rfl, rfl, ?_⟩
  decide

/-- C2 (amended): after data assignment in `process`, whenever the envelope
was built (`is_modified`) and the accumulated state still signals an error
(status ≥ 400 or errors non-empty), the final status is exactly 400 — the
forcing is unconditional and overwrites any higher status. -/
theorem c2_error_state_forces_exactly_400 (v : Option Validator)
    (r : Option HttpResponse) (c : Option JSON) (e' : Envelope)
    (h : process (mkEnvelope v r c) = some e')
    (hmod : e'.is_modified = true)
    (hcont : contains_errors e'.response_data = true) :
    e'.response_data.status = 400 :=
  process_modified_spec _ _ h rfl hmod hcont

/-- C2 witness: the amended statement at the concrete 404 input. -/
theorem c2_error_state_forces_exactly_400_witness :
    (⟨none, some ⟨404, some "application/json", .obj [("a", .num 1)]⟩, none,
      true, true,
      ⟨400, [("api", .obj [("__all__", .arr [.str "Invalid API request"])])],
        none, .obj [("a", .num 1)]⟩⟩ : Envelope).response_data.status = 400 :=
  c2_error_state_forces_exactly_400 none
    (some ⟨404, some "application/json", .obj [("a", .num 1)]⟩) none _ rfl rfl rfl

/-- C3 counterexample: the claim's message for 401 is "Unauthorized", but the
code adds "Unauthorized API request" (similarly for 403/404/405). -/
theorem c3_counterexample_401_message :
    ∃ rd', set_status ⟨200, [], none, .obj []⟩ 401 = some rd' ∧
      lookupField rd'.errors "api" =
        some (.obj [("__all__", .arr [.str "Unauthorized API request"])]) ∧
      "Unauthorized API request" ≠ "Unauthorized" := by
  refine ⟨⟨401, [("api", .obj [("__all__", .arr [.str "Unauthorized API request"])])],
      none, .obj []⟩, rfl, rfl, ?_⟩
  decide

/-- C3 (amended): `set_status` on a state with no errors yet stores the code
and auto-adds exactly the source's messages: 400 → "Invalid API request",
401 → "Unauthorized API request", 403 → "API request forbidden",
404 → "Requested resource was not found", 405 → "API method not allowed",
≥ 500 → "System error occurred", and any other code adds no message. -/
theorem c3_status_message_table (code : Nat) (rd : ResponseData)
    (h : rd.errors = []) :
    ∃ rd', set_status rd code = some rd' ∧ rd'.status = code ∧
      rd'.errors = (match apiMessageFor code with
        | some msg => [("api", .obj [("__all__", .arr [.str msg])])]
        | none => []) := by
  simp only [set_status]
  rw [h]
  split_ifs with h1 h2 h3 h4 h5 h6
  · subst h1
    exact ⟨_, rfl, rfl, rfl⟩
  · subst h2
    exact ⟨_, rfl, rfl, rfl⟩
  · subst h3
    exact ⟨_, rfl, rfl, rfl⟩
  · subst h4
    exact ⟨_, rfl, rfl, rfl⟩
  · subst h5
    exact ⟨_, rfl, rfl, rfl⟩
  · refine ⟨_, rfl, rfl, ?_⟩
    simp only [apiMessageFor, h1, h2, h3, h4, h5, h6, if_false, if_true,
      Bool.false_eq_true]
    rfl
  · refine ⟨_, rfl, rfl, ?_⟩
    simp [apiMessageFor, h1, h2, h3, h4, h5, h6]

/-- C3 witness: the amended table at code 401 on a fresh state. -/
theorem c3_status_message_table_witness :
    ∃ rd', set_status ⟨200, [], none, .obj []⟩ 401 = some rd' ∧ rd'.status = 401 ∧
      rd'.errors = [("api", .obj [("__all__", .arr [.str "Unauthorized API request"])])] := by
  obtain ⟨rd', h1, h2, h3⟩ := c3_status_message_table 401 ⟨200, [], none, .obj []⟩ rfl
  exact ⟨rd', h1, h2, h3⟩

/-- C4 counterexample: an eligible *raw content* payload containing both
`meta` and `objects` is not hoisted — the whole payload lands under `data`
and no `pagination` is set (hoisting only happens on the response branch). -/
theorem c4_counterexample_content_not_hoisted :
    ∃ e', process (mkEnvelope none none (some (.obj
        [("meta", .obj [("limit", .num 20)]),
         ("objects", .arr [.obj [("id", .num 1)]])]))) = some e' ∧
      e'.is_modified = true ∧
      e'.response_data.pagination = none ∧
      e'.response_data.data = .obj [("meta", .obj [("limit", .num 20)]),
        ("objects", .arr [.obj [("id", .num 1)]])] ∧
      e'.response_data.data ≠ .arr [.obj [("id", .num 1)]] := by
  refine ⟨⟨none, none,
      some (.obj [("meta", .obj [("limit", .num 20)]),
        ("objects", .arr [.obj [("id", .num 1)]])]),
      true, true,
      ⟨200, [], none,
        .obj [("meta", .obj [("limit", .num 20)]),
          ("objects", .arr [.obj [("id", .num 1)]])]⟩⟩, rfl, rfl, rfl, rfl, ?_⟩
  simp

/-- C4 (amended): for payloads arriving through a JSON `HttpResponse` body,
a `meta`+`objects` (no `data`) payload is hoisted: the body's `meta` becomes
`meta.pagination` and `data` becomes the `objects` collection; with a 200
response and no validator the output is the serialized
`{meta: {status: 200, errors: {}, pagination: ..}, data: objects}` envelope. -/
theorem c4_response_list_payload_hoisted (r : HttpResponse) (ct : String)
    (fs : List (String × JSON)) (pg objs : JSON)
    (hbody : r.body = .obj fs) (hct : r.content_type = some ct)
    (hjson : strContains ct "json" = true)
    (hm : hasKey fs "meta" = true) (ho : hasKey fs "objects" = true)
    (hd : hasKey fs "data" = false)
    (hpg : lookupField fs "meta" = some pg)
    (hobjs : lookupField fs "objects" = some objs)
    (hstatus : r.status_code = 200) :
    ∃ e1, transform (mkEnvelope none (some r) none) =
      some (e1, build_response ⟨200, [], some pg, objs⟩) := by
  have hproc : process (mkEnvelope none (some r) none) =
      some ⟨none, some r, none, true, true, ⟨200, [], some pg, objs⟩⟩ := by
    simp [process, mkEnvelope, hstatus, eligibility, eligibilityResponse, hct, hjson,
      hbody, pyContains, pyIndex, hm, ho, hd, hpg, hobjs, update_data,
      applyValidation, finalizeErrors, contains_errors]
  have hstep : (if (mkEnvelope none (some r) none).is_processed = true
      then some (mkEnvelope none (some r) none)
      else process (mkEnvelope none (some r) none)) =
      some ⟨none, some r, none, true, true, ⟨200, [], some pg, objs⟩⟩ := by
    simp only [mkEnvelope, Bool.false_eq_true, if_false]
    exact hproc
  refine ⟨⟨none, some r, none, true, true, ⟨200, [], some pg, objs⟩⟩, ?_⟩
  unfold transform
  simp only [hstep]
  rfl

/-- C4 witness: the spec's round-trip example through the response path. -/
theorem c4_response_list_payload_hoisted_witness :
    ∃ e1 r1, transform (mkEnvelope none
        (some ⟨200, some "application/json",
          .obj [("meta", .obj [("limit", .num 20), ("offset", .num 0),
                  ("total_count", .num 1)]),
                ("objects", .arr [.obj [("id", .num 1)]])]⟩) none) =
      some (e1, r1) ∧
      r1.body = .obj [("meta", .obj
          [("status", .num 200), ("errors", .obj []),
           ("pagination", .obj [("limit", .num 20), ("offset", .num 0),
             ("total_count", .num 1)])]),
        ("data", .arr [.obj [("id", .num 1)]])] := by
  obtain ⟨e1, h⟩ := c4_response_list_payload_hoisted
    ⟨200, some "application/json",
      .obj [("meta", .obj [("limit", .num 20), ("offset", .num 0),
              ("total_count", .num 1)]),
            ("objects", .arr [.obj [("id", .num 1)]])]⟩
    "application/json"
    [("meta", .obj [("limit", .num 20), ("offset", .num 0), ("total_count", .num 1)]),
     ("objects", .arr [.obj [("id", .num 1)]])]
    (.obj [("limit", .num 20), ("offset", .num 0), ("total_count", .num 1)])
    (.arr [.obj [("id", .num 1)]])
    rfl rfl rfl rfl rfl rfl rfl rfl rfl
  exact ⟨e1, _, h, rfl⟩

/-- C5 counterexample: raw content whose keys are *exactly* `meta` and `data`
is accepted (the source tests a proper subset, `<`, not `⊆`): the envelope is
modified, the whole payload lands under `data`, and `transform` returns a
freshly built response instead of the original. -/
theorem c5_counterexample_exact_meta_data_accepted :
    ∃ e' e2 r2,
      process (mkEnvelope none (some ⟨200, some "application/json", .obj []⟩)
        (some (.obj [("meta", .num 1), ("data", .num 2)]))) = some e' ∧
      e'.is_modified = true ∧
      e'.response_data.data = .obj [("meta", .num 1), ("data", .num 2)] ∧
      transform (mkEnvelope none (some ⟨200, some "application/json", .obj []⟩)
        (some (.obj [("meta", .num 1), ("data", .num 2)]))) = some (e2, r2) ∧
      r2 ≠ ⟨200, some "application/json", .obj []⟩ := by
  refine ⟨⟨none, some ⟨200, some "application/json", .obj []⟩,
      some (.obj [("meta", .num 1), ("data", .num 2)]), true, true,
      ⟨200, [], none, .obj [("meta", .num 1), ("data", .num 2)]⟩⟩,
    ⟨none, some ⟨200, some "application/json", .obj []⟩,
      some (.obj [("meta", .num 1), ("data", .num 2)]), true, true,
      ⟨200, [], none, .obj [("meta", .num 1), ("data", .num 2)]⟩⟩,
    build_response ⟨200, [], none, .obj [("meta", .num 1), ("data", .num 2)]⟩,
    rfl, rfl, rfl, rfl, ?_⟩
  intro hcontra
  have hb := congrArg HttpResponse.body hcontra
  simp [build_response, serialize] at hb

/-- C5 (amended): a JSON response body containing both `meta` and `data`
top-level keys is rejected — the envelope state is unchanged apart from the
processed flag and `transform` returns the original response; raw content,
however, is rejected only when it has `meta`, `data` *and* at least one
additional key. -/
theorem c5_already_enveloped_rejected :
    (∀ (v : Option Validator) (r : HttpResponse) (ct : String)
        (fs : List (String × JSON)),
      r.body = .obj fs → r.content_type = some ct → strContains ct "json" = true →
      hasKey fs "meta" = true → hasKey fs "data" = true →
      process (mkEnvelope v (some r) none) =
          some { mkEnvelope v (some r) none with is_processed := true } ∧
        transform (mkEnvelope v (some r) none) =
          some ({ mkEnvelope v (some r) none with is_processed := true }, r)) ∧
    (∀ (v : Option Validator) (fs : List (String × JSON)),
      hasKey fs "meta" = true → hasKey fs "data" = true →
      (fs.any fun p => p.1 ≠ "meta" && p.1 ≠ "data") = true →
      process (mkEnvelope v none (some (.obj fs))) =
        some { mkEnvelope v none (some (.obj fs)) with is_processed := true }) := by
  constructor
  · intro v r ct fs hbody hct hjson hm hd
    have helig : eligibility (mkEnvelope v (some r) none).response
        (mkEnvelope v (some r) none).content
        (mkEnvelope v (some r) none).response_data =
        some (false, (mkEnvelope v (some r) none).response_data) := by
      show eligibility (some r) none (mkEnvelope v (some r) none).response_data = _
      simp [eligibility, eligibilityResponse, hct, hjson, hbody, pyContains, hm, hd]
    have hproc : process (mkEnvelope v (some r) none) =
        some { mkEnvelope v (some r) none with is_processed := true } := by
      simp only [process, helig]
    refine ⟨hproc, ?_⟩
    unfold transform
    have hstep : (if (mkEnvelope v (some r) none).is_processed = true
        then some (mkEnvelope v (some r) none)
        else process (mkEnvelope v (some r) none)) =
        some { mkEnvelope v (some r) none with is_processed := true } := by
      simp only [mkEnvelope, Bool.false_eq_true, if_false]
      exact hproc
    simp only [hstep]
    rfl
  · intro v fs hm hd hextra
    have htruthy : jsonTruthy (.obj fs) = true := by
      cases fs with
      | nil => simp [hasKey] at hm
      | cons p rest => simp [jsonTruthy]
    have hsub : metaDataProperSubset fs = true := by
      unfold metaDataProperSubset
      rw [hm, hd, hextra]
      rfl
    have helig : eligibility (mkEnvelope v none (some (.obj fs))).response
        (mkEnvelope v none (some (.obj fs))).content
        (mkEnvelope v none (some (.obj fs))).response_data =
        some (false, (mkEnvelope v none (some (.obj fs))).response_data) := by
      show eligibility none (some (.obj fs))
        (mkEnvelope v none (some (.obj fs))).response_data = _
      simp [eligibility, htruthy, hsub]
    simp only [process, helig]

/-- C5 witness: the amended statement at a concrete already-enveloped JSON
response body. -/
theorem c5_already_enveloped_rejected_witness :
    process (mkEnvelope none
        (some ⟨200, some "application/json",
          .obj [("meta", .num 1), ("data", .num 2)]⟩) none) =
      some { mkEnvelope none
        (some ⟨200, some "application/json",
          .obj [("meta", .num 1), ("data", .num 2)]⟩) none with is_processed := true } ∧
    transform (mkEnvelope none
        (some ⟨200, some "application/json",
          .obj [("meta", .num 1), ("data", .num 2)]⟩) none) =
      some ({ mkEnvelope none
        (some ⟨200, some "application/json",
          .obj [("meta", .num 1), ("data", .num 2)]⟩) none with is_processed := true },
        ⟨200, some "application/json", .obj [("meta", .num 1), ("data", .num 2)]⟩) :=
  c5_already_enveloped_rejected.1 none
    ⟨200, some "application/json", .obj [("meta", .num 1), ("data", .num 2)]⟩
    "application/json" [("meta", .num 1), ("data", .num 2)] rfl rfl rfl rfl rfl

/-- C6 counterexample: invoking `process` on an envelope constructed with
neither response nor content does change the envelope state — it flips the
`is_processed` flag — so "makes no change to the envelope state" fails as
stated. -/
theorem c6_counterexample_no_input_still_marks_processed :
    ∃ e', process (mkEnvelope none none none) = some e' ∧
      e' ≠ mkEnvelope none none none := by
  refine ⟨{ mkEnvelope none none none with is_processed := true }, rfl, ?_⟩
  intro hcontra
  have hp := congrArg Envelope.is_processed hcontra
  simp [mkEnvelope] at hp

/-- C6 (amended): `process` has no internal re-entry guard (only
`transform` checks `is_processed`), but re-invoking it on its own output is
the identity; and on a no-input envelope it leaves `response_data` and
`is_modified` unchanged, only recording that processing ran. -/
theorem c6_process_reexecution_identity (e e' : Envelope)
    (h : process e = some e') :
    process e' = some e' ∧
      (e.response = none → e.content = none →
        e'.response_data = e.response_data ∧ e'.is_modified = e.is_modified) := by
  refine ⟨process_idem e e' h, fun hr hc => ?_⟩
  unfold process at h
  rw [hr, hc] at h
  simp only [eligibility, Option.some.injEq] at h
  subst h
  exact ⟨rfl, rfl⟩

/-- C6 witness: re-running `process` on the processed no-input envelope. -/
theorem c6_process_reexecution_identity_witness :
    process { mkEnvelope none none none with is_processed := true } =
        some { mkEnvelope none none none with is_processed := true } ∧
      ({ mkEnvelope none none none with is_processed := true } : Envelope).response_data =
        (mkEnvelope none none none).response_data := by
  obtain ⟨h1, h2⟩ := c6_process_reexecution_identity (mkEnvelope none none none)
    { mkEnvelope none none none with is_processed := true } rfl
  exact ⟨h1, (h2 rfl rfl).1⟩

/-- C7: `transform` is idempotent — a second call returns the same envelope
and the very same response (same body and status fields) as the first. -/
theorem c7_transform_idempotent (e e1 : Envelope) (r1 : HttpResponse)
    (h : transform e = some (e1, r1)) : transform e1 = some (e1, r1) :=
  transform_idem e e1 r1 h

/-- C7 witness: idempotence at the no-input envelope. -/
theorem c7_transform_idempotent_witness :
    transform (⟨none, none, none, false, true,
        ⟨500, [("api", .obj [("__all__", .arr [.str "System error occurred"])])],
          none, .obj []⟩⟩ : Envelope) =
      some (⟨none, none, none, false, true,
          ⟨500, [("api", .obj [("__all__", .arr [.str "System error occurred"])])],
            none, .obj []⟩⟩,
        build_response ⟨500,
          [("api", .obj [("__all__", .arr [.str "System error occurred"])])],
          none, .obj []⟩) :=
  c7_transform_idempotent (mkEnvelope none none none) _ _ rfl

/-- C8 counterexample: `add_errors` is not exception-free on mixed payloads —
a dict payload followed by a string payload for the same category hits a
missing `'__all__'` key (`KeyError`, modelled as `none`). -/
theorem c8_counterexample_add_errors_mixed_payloads_raise :
    add_errors [] "form" (.obj [("field1", .arr [.str "required"])]) =
        some [("form", .obj [("field1", .arr [.str "required"])])] ∧
      add_errors [("form", .obj [("field1", .arr [.str "required"])])] "form"
        (.str "also-invalid") = none :=
  ⟨rfl, rfl⟩

/-- C8 (amended): for freshly constructed envelopes whose response body (if
a response is given) is a JSON object, `process`/`transform` themselves
never raise: `transform` always returns a well-formed response value, for
any validator, any raw content and any status code. -/
theorem c8_transform_never_raises_on_wellformed_input (v : Option Validator)
    (r : Option HttpResponse) (c : Option JSON)
    (hr : ∀ rr, r = some rr → ∃ fs, rr.body = JSON.obj fs) :
    ∃ e1 r1, transform (mkEnvelope v r c) = some (e1, r1) :=
  transform_total_fresh v r c hr

/-- C8 witness: a validator producing form errors on a JSON-object response
body still yields a response. -/
theorem c8_transform_never_raises_witness :
    ∃ e1 r1, transform (mkEnvelope
        (some (fun _ => [("field1", .arr [.str "required"])]))
        (some ⟨200, some "application/json", .obj [("x", .num 1)]⟩) none) =
      some (e1, r1) :=
  c8_transform_never_raises_on_wellformed_input
    (some (fun _ => [("field1", .arr [.str "required"])]))
    (some ⟨200, some "application/json", .obj [("x", .num 1)]⟩) none
    (fun rr hrr => by cases hrr; exact ⟨[("x", .num 1)], rfl⟩)

/-- C9: an envelope constructed with neither response nor content degrades:
`transform` returns a freshly built response carrying `meta.status = 500`
and an `api` category error, instead of crashing. -/
theorem c9_no_input_degrades_to_500 (v : Option Validator) :
    ∃ e1 r1, transform (mkEnvelope v none none) = some (e1, r1) ∧
      e1.response_data.status = 500 ∧
      hasKey e1.response_data.errors "api" = true ∧
      r1 = build_response e1.response_data ∧
      r1.body = .obj [("meta", .obj
          [("status", .num 500),
           ("errors", .obj [("api", .obj
             [("__all__", .arr [.str "System error occurred"])])])]),
        ("data", .obj [])] :=
  ⟨⟨v, none, none, false, true,
      ⟨500, [("api", .obj [("__all__", .arr [.str "System error occurred"])])],
        none, .obj []⟩⟩,
    build_response ⟨500,
      [("api", .obj [("__all__", .arr [.str "System error occurred"])])],
      none, .obj []⟩, rfl, rfl, rfl, rfl, rfl⟩

/-- C10: whenever `transform` builds a new response (the envelope was
modified, or there is no original response to fall back to), the returned
`HttpResponse` carries Django's default status code 200, whatever
`meta.status` in the body says. -/
theorem c10_built_response_http_status_200 (e e1 : Envelope) (r1 : HttpResponse)
    (h : transform e = some (e1, r1))
    (hbuilt : e1.is_modified = true ∨ e1.response = none) :
    r1.status_code = 200 := by
  unfold transform at h
  cases hstep : (if e.is_processed = true then some e else process e) with
  | none => simp [hstep] at h
  | some e0 =>
    simp only [hstep] at h
    by_cases hmod : e0.is_modified = true
    · simp only [hmod, if_true] at h
      cases hss : (if contains_errors e0.response_data &&
          (get_status e0.response_data == 200) then
            set_status e0.response_data 400
          else some e0.response_data) with
      | none =>
        simp only [hss] at h
        exact Option.noConfusion h
      | some rd =>
        simp only [hss, Option.some.injEq, Prod.mk.injEq] at h
        obtain ⟨he1, hr1⟩ := h
        subst hr1
        rfl
    · simp only [hmod, Bool.false_eq_true, if_false] at h
      cases hre : e0.response with
      | some rr =>
        simp only [hre, Option.some.injEq, Prod.mk.injEq] at h
        obtain ⟨he1, hr1⟩ := h
        subst he1
        rcases hbuilt with hb | hb
        · exact absurd hb hmod
        · rw [hre] at hb
          simp at hb
      | none =>
        simp only [hre] at h
        cases hss : (if get_status e0.response_data < 400 then
            set_status e0.response_data 500
          else some e0.response_data) with
        | none =>
          simp only [hss] at h
          exact Option.noConfusion h
        | some rd =>
          simp only [hss, Option.some.injEq, Prod.mk.injEq] at h
          obtain ⟨he1, hr1⟩ := h
          subst hr1
          rfl

/-- C10 witness: the degraded 500 envelope is delivered with HTTP status
code 200. -/
theorem c10_built_response_http_status_200_witness :
    (build_response ⟨500,
      [("api", .obj [("__all__", .arr [.str "System error occurred"])])],
      none, .obj []⟩).status_code = 200 :=
  c10_built_response_http_status_200 (mkEnvelope none none none)
    ⟨none, none, none, false, true,
      ⟨500, [("api", .obj [("__all__", .arr [.str "System error occurred"])])],
        none, .obj []⟩⟩
    (build_response ⟨500,
      [("api", .obj [("__all__", .arr [.str "System error occurred"])])],
      none, .obj []⟩)
    rfl (Or.inr rfl)

end Tastypie
